import Mathlib

/-!
Verification of the TickAndTie export/annotation pipeline.

This file gives a shallow embedding, in Lean 4, of the local "core" logic of
the repository: the key sanitizer, the duplicate-filename resolution of the
export packager, the markdown-table extractor, the annotation renderer's
drawing loop, the audit-sheet construction, the library-availability guard
of the export packager, and the post-processing of a reconciliation-service
response.  Each definition is translated from the corresponding TypeScript
function (named in its doc comment); JavaScript numbers are modelled as
exact rationals, strings as Lean strings (character lists), fallible or
host-dependent operations (text measurement, JPEG encoding, JSON parsing)
as explicit function parameters.
-/

/-- Character class of the JavaScript regex `[a-zA-Z0-9]` used by
`sanitizeKey` (utils, line 14): ASCII digits `48..57`, uppercase `65..90`,
lowercase `97..122`. -/
def isWordChar (c : Char) : Bool :=
  (decide (48 ≤ c.toNat) && decide (c.toNat ≤ 57)) ||
  (decide (65 ≤ c.toNat) && decide (c.toNat ≤ 90)) ||
  (decide (97 ≤ c.toNat) && decide (c.toNat ≤ 122))

/-- Embedding of `sanitizeKey` (utils, lines 13-15):
`name.replace(/[^a-zA-Z0-9]/g, '_').toLowerCase()`.  The global regex
replacement is per character; `toLowerCase` is applied afterwards (after the
replacement every character is ASCII, so the JavaScript Unicode lowercasing
agrees with `Char.toLower`). -/
def sanitizeKey (name : String) : String :=
  ⟨(name.data.map (fun c => if isWordChar c then c else '_')).map Char.toLower⟩

/-- The per-character action of `sanitizeKey`: regex replacement followed by
lowercasing. -/
def sanitizeStep (c : Char) : Char :=
  Char.toLower (if isWordChar c then c else '_')

lemma toLower_toNat_of_upper (c : Char) (h : 65 ≤ c.toNat ∧ c.toNat ≤ 90) :
    (Char.toLower c).toNat = c.toNat + 32 := by
  have hv : (c.toNat + 32).isValidChar := by
    unfold Nat.isValidChar
    left
    omega
  unfold Char.toLower
  rw [if_pos h]
  unfold Char.ofNat
  rw [dif_pos hv]
  rfl

lemma toLower_eq_self (c : Char) (h : ¬(65 ≤ c.toNat ∧ c.toNat ≤ 90)) :
    Char.toLower c = c := by
  unfold Char.toLower
  rw [if_neg h]

lemma isWordChar_iff (c : Char) :
    isWordChar c = true ↔
      ((48 ≤ c.toNat ∧ c.toNat ≤ 57) ∨ (65 ≤ c.toNat ∧ c.toNat ≤ 90) ∨
        (97 ≤ c.toNat ∧ c.toNat ≤ 122)) := by
  simp only [isWordChar, Bool.or_eq_true, Bool.and_eq_true, decide_eq_true_iff]
  tauto

lemma sanitizeStep_spec (c : Char) :
    (sanitizeStep c).toNat = 95 ∨
      (48 ≤ (sanitizeStep c).toNat ∧ (sanitizeStep c).toNat ≤ 57) ∨
      (97 ≤ (sanitizeStep c).toNat ∧ (sanitizeStep c).toNat ≤ 122) := by
  unfold sanitizeStep
  by_cases hw : isWordChar c = true
  · rw [if_pos hw]
    rcases (isWordChar_iff c).mp hw with h | h | h
    · rw [toLower_eq_self c (by omega)]
      right; left; exact h
    · right; right
      rw [toLower_toNat_of_upper c h]
      omega
    · rw [toLower_eq_self c (by omega)]
      right; right; exact h
  · rw [if_neg hw]
    left
    decide

lemma toNat_eq_95 (c : Char) (h : c.toNat = 95) : c = '_' :=
  Char.ext (UInt32.ext h)

lemma sanitizeStep_of_fixed (d : Char) (hw : isWordChar d = true)
    (h : ¬(65 ≤ d.toNat ∧ d.toNat ≤ 90)) : sanitizeStep d = d := by
  unfold sanitizeStep
  rw [if_pos hw]
  exact toLower_eq_self d h

lemma sanitizeStep_idem (c : Char) : sanitizeStep (sanitizeStep c) = sanitizeStep c := by
  rcases sanitizeStep_spec c with h | h | h
  · rw [toNat_eq_95 _ h]
    decide
  · exact sanitizeStep_of_fixed _ ((isWordChar_iff _).mpr (Or.inl h)) (by omega)
  · exact sanitizeStep_of_fixed _ ((isWordChar_iff _).mpr (Or.inr (Or.inr h)))
      (by omega)

lemma sanitizeKey_data (s : String) :
    (sanitizeKey s).data = s.data.map sanitizeStep := by
  unfold sanitizeKey
  rw [List.map_map]
  rfl

/-- Claim C10: for every input string, `sanitizeKey` produces only lowercase
ASCII letters (codes 97-122), digits (codes 48-57) and underscores (code 95),
and `sanitizeKey` is idempotent. -/
theorem claim_C10 (s : String) :
    (∀ c ∈ (sanitizeKey s).data,
        c.toNat = 95 ∨ (48 ≤ c.toNat ∧ c.toNat ≤ 57) ∨
          (97 ≤ c.toNat ∧ c.toNat ≤ 122)) ∧
      sanitizeKey (sanitizeKey s) = sanitizeKey s := by
  constructor
  · intro c hc
    rw [sanitizeKey_data] at hc
    rcases List.mem_map.mp hc with ⟨a, _, ha⟩
    rw [← ha]
    exact sanitizeStep_spec a
  · apply String.ext
    simp only [sanitizeKey_data, List.map_map]
    apply List.map_congr_left
    intro a _
    simpa using sanitizeStep_idem a

/-- Witness for C10 at the concrete input `"Invoice No."` (which sanitizes to
`"invoice_no_"`). -/
theorem claim_C10_witness :
    ('i'.toNat = 95 ∨ (48 ≤ 'i'.toNat ∧ 'i'.toNat ≤ 57) ∨
        (97 ≤ 'i'.toNat ∧ 'i'.toNat ≤ 122)) ∧
      sanitizeKey (sanitizeKey "Invoice No.") = sanitizeKey "Invoice No." :=
  ⟨(claim_C10 "Invoice No.").1 'i' (by decide), (claim_C10 "Invoice No.").2⟩

/-- Reference decimal digit list of a natural number (most significant digit
first), used to reason about `Nat.repr`, which is how the TypeScript template
literal renders the collision counter in the export packager. -/
def decDigits (n : Nat) : List Char :=
  if n < 10 then [Nat.digitChar n]
  else decDigits (n / 10) ++ [Nat.digitChar (n % 10)]
termination_by n
decreasing_by exact Nat.div_lt_self (by omega) (by omega)

/-- Decimal decoding of a digit-character list. -/
def decodeDigits (l : List Char) : Nat :=
  l.foldl (fun a c => 10 * a + (c.toNat - 48)) 0

lemma val_digitChar : ∀ d, d < 10 → (Nat.digitChar d).toNat - 48 = d := by decide

lemma toDigitsCore_eq_decDigits :
    ∀ (fuel n : Nat) (ds : List Char), n < fuel →
      Nat.toDigitsCore 10 fuel n ds = decDigits n ++ ds := by
  intro fuel
  induction fuel with
  | zero => intro n ds h; omega
  | succ fuel ih =>
    intro n ds h
    by_cases hz : n / 10 = 0
    · have hn : n < 10 := (Nat.div_eq_zero_iff (by omega)).mp hz
      simp only [Nat.toDigitsCore, hz, if_pos]
      rw [decDigits, if_pos hn, Nat.mod_eq_of_lt hn]
      rfl
    · have hn : ¬ n < 10 := by
        intro h10
        exact hz (Nat.div_eq_of_lt h10)
      have hlt : n / 10 < fuel := by
        have := Nat.div_lt_self (by omega : 0 < n) (by omega : 1 < 10)
        omega
      simp only [Nat.toDigitsCore, hz, if_false]
      rw [ih (n / 10) _ hlt]
      conv_rhs => rw [decDigits]
      rw [if_neg hn, List.append_assoc]
      rfl

lemma foldl_decDigits (n : Nat) :
    ∀ acc : Nat,
      List.foldl (fun a c => 10 * a + (c.toNat - 48)) acc (decDigits n) =
        acc * 10 ^ (decDigits n).length + n := by
  induction n using Nat.strong_induction_on with
  | _ n ih =>
    intro acc
    by_cases hn : n < 10
    · rw [decDigits, if_pos hn]
      simp [List.foldl, val_digitChar n hn]
      ring
    · have h0 : 0 < n := by omega
      have hdiv : n / 10 < n := Nat.div_lt_self h0 (by omega)
      rw [decDigits, if_neg hn, List.foldl_append, ih (n / 10) hdiv acc]
      have hmod : n % 10 < 10 := Nat.mod_lt n (by omega)
      simp [List.foldl, val_digitChar (n % 10) hmod]
      rw [pow_succ]
      have hdm : 10 * (n / 10) + n % 10 = n := Nat.div_add_mod n 10
      nlinarith [hdm]

lemma decodeDigits_decDigits (n : Nat) : decodeDigits (decDigits n) = n := by
  unfold decodeDigits
  rw [foldl_decDigits n 0]
  simp

lemma toDigits_eq_decDigits (n : Nat) : Nat.toDigits 10 n = decDigits n := by
  unfold Nat.toDigits
  rw [toDigitsCore_eq_decDigits (n + 1) n [] (by omega), List.append_nil]

lemma repr_data (n : Nat) : (Nat.repr n).data = decDigits n := by
  show (Nat.toDigits 10 n).asString.data = decDigits n
  rw [toDigits_eq_decDigits]
  rfl

lemma repr_injective : Function.Injective Nat.repr := by
  intro m n h
  have hd : decDigits m = decDigits n := by
    rw [← repr_data, ← repr_data, h]
  have := decodeDigits_decDigits m
  rw [hd, decodeDigits_decDigits n] at this
  omega

lemma repr_length_pos (n : Nat) : 0 < (Nat.repr n).length := by
  show 0 < (Nat.repr n).data.length
  rw [repr_data, decDigits]
  split
  · simp
  · simp

/-- Extraction result for one (document, field) pair, from `types`:
`value` may be null/absent; `box_2d` is `[ymin, xmin, ymax, xmax]`
normalized to a 0-1000 scale, or absent. -/
structure ExtractedValue where
  value : Option String
  box_2d : Option (Int × Int × Int × Int)

/-- A user-defined extraction field, from `types`. -/
structure FieldDefinition where
  id : String
  key : String
  name : String
  color : String

/-- A processed document, from `types`; `data` maps a field key to its
extracted value, `annotatedBlob` records whether an annotated image was
produced (the blob bytes themselves are irrelevant to the export logic). -/
structure DocumentResult where
  id : String
  fileName : String
  status : String
  data : String → Option ExtractedValue
  annotatedBlob : Bool

def dummyDoc : DocumentResult :=
  { id := "", fileName := "", status := "", data := fun _ => none,
    annotatedBlob := false }

/-- Embedding of the `lastIndexOf(".")`-based split used twice in
`exportToZip` (utils, lines 235-236 and 240-242): the part before the last
dot, and the part from the last dot on (empty when there is no dot). -/
def lastDotSplit (name : String) : String × String :=
  match name.data.reverse.findIdx? (fun c => c == '.') with
  | none => (name, "")
  | some j =>
    (⟨name.data.take (name.data.length - 1 - j)⟩,
     ⟨name.data.drop (name.data.length - 1 - j)⟩)

lemma lastDotSplit_append (name : String) :
    (lastDotSplit name).1 ++ (lastDotSplit name).2 = name := by
  unfold lastDotSplit
  cases h : name.data.reverse.findIdx? (fun c => c == '.') with
  | none => simp
  | some j =>
    simp only [h]
    apply String.ext
    rw [String.data_append]
    exact List.take_append_drop _ _

/-- The export filename before collision resolution (utils, lines 232-238):
a document with an annotated blob is saved as `<base>_annotated.jpg`,
otherwise under its original file name. -/
def exportName (doc : DocumentResult) : String :=
  if doc.annotatedBlob then (lastDotSplit doc.fileName).1 ++ "_annotated.jpg"
  else doc.fileName

/-- The candidate collision name `` `${base}_${counter}${ext}` `` of
utils, line 248. -/
def candName (base ext : String) (n : Nat) : String :=
  base ++ "_" ++ Nat.repr n ++ ext

/-- Embedding of the `while (usedFilenames.has(uniqueName))` loop of utils,
lines 245-250, with explicit fuel; `resolveName` supplies enough fuel for
the loop to terminate (proved below). -/
def resolveLoop (used : List String) (base ext : String) :
    Nat → String → Nat → String
  | _, cur, 0 => cur
  | counter, cur, fuel + 1 =>
    if cur ∈ used then
      resolveLoop used base ext (counter + 1) (candName base ext counter) fuel
    else cur

/-- Collision resolution for one filename against the set of names already
used (utils, lines 240-250). -/
def resolveName (used : List String) (name : String) : String :=
  resolveLoop used (lastDotSplit name).1 (lastDotSplit name).2 1 name
    (used.length + 1)

/-- The per-document filename resolution of `exportToZip`
(utils, lines 231-252), in document order, threading the set of used names. -/
def resolveAll : List DocumentResult → List String → List String
  | [], _ => []
  | d :: ds, used =>
    let u := resolveName used (exportName d)
    u :: resolveAll ds (u :: used)

lemma candName_inj (base ext : String) : Function.Injective (candName base ext) := by
  intro m n h
  apply repr_injective
  apply String.ext
  have hd : (candName base ext m).data = (candName base ext n).data :=
    congrArg String.data h
  simp only [candName, String.data_append, List.append_assoc] at hd
  have h1 := List.append_cancel_left hd
  have h2 := List.append_cancel_left h1
  exact List.append_cancel_right h2

lemma candName_ne (name : String) (n : Nat) :
    candName (lastDotSplit name).1 (lastDotSplit name).2 n ≠ name := by
  intro h
  have hlen := congrArg String.length h
  have hbe : name.length =
      (lastDotSplit name).1.length + (lastDotSplit name).2.length := by
    conv_lhs => rw [← lastDotSplit_append name]
    rw [String.length_append]
  simp only [candName, String.length_append] at hlen
  have hr := repr_length_pos n
  have hu : ("_" : String).length = 1 := rfl
  omega

lemma nodup_all_mem_length_le {K used : List String} (hnd : K.Nodup)
    (hsub : ∀ x ∈ K, x ∈ used) : K.length ≤ used.length := by
  have h1 : K.toFinset.card = K.length := List.toFinset_card_of_nodup hnd
  have h2 : K.toFinset ⊆ used.toFinset := by
    intro x hx
    rw [List.mem_toFinset] at hx ⊢
    exact hsub x hx
  have h3 := Finset.card_le_card h2
  have h4 := List.toFinset_card_le used
  omega

lemma resolveLoop_char (used : List String) (base ext : String) :
    ∀ (fuel counter : Nat) (cur : String),
      (cur ∉ used ∨
        ∃ n, counter ≤ n ∧ n < counter + fuel ∧ candName base ext n ∉ used) →
      resolveLoop used base ext counter cur fuel ∉ used ∧
        (cur ∉ used → resolveLoop used base ext counter cur fuel = cur) ∧
        (cur ∈ used →
          ∃ n, counter ≤ n ∧
            resolveLoop used base ext counter cur fuel = candName base ext n ∧
            ∀ m, counter ≤ m → m < n → candName base ext m ∈ used) := by
  intro fuel
  induction fuel with
  | zero =>
    intro counter cur hyp
    have hcur : cur ∉ used := by
      rcases hyp with h | ⟨n, h1, h2, _⟩
      · exact h
      · omega
    exact ⟨hcur, fun _ => rfl, fun hmem => absurd hmem hcur⟩
  | succ fuel ih =>
    intro counter cur hyp
    by_cases hmem : cur ∈ used
    · have hyp2 : candName base ext counter ∉ used ∨
          ∃ n, counter + 1 ≤ n ∧ n < counter + 1 + fuel ∧
            candName base ext n ∉ used := by
        rcases hyp with h | ⟨n, h1, h2, h3⟩
        · exact absurd hmem h
        · rcases Nat.eq_or_lt_of_le h1 with rfl | hlt
          · exact Or.inl h3
          · exact Or.inr ⟨n, hlt, by omega, h3⟩
      obtain ⟨r1, r2, r3⟩ := ih (counter + 1) (candName base ext counter) hyp2
      have heq : resolveLoop used base ext counter cur (fuel + 1) =
          resolveLoop used base ext (counter + 1) (candName base ext counter)
            fuel := by
        simp only [resolveLoop, if_pos hmem]
      refine ⟨by rw [heq]; exact r1, fun hn => absurd hmem hn, fun _ => ?_⟩
      by_cases hc : candName base ext counter ∈ used
      · obtain ⟨n, hn1, hn2, hn3⟩ := r3 hc
        refine ⟨n, by omega, by rw [heq]; exact hn2, fun m hm1 hm2 => ?_⟩
        rcases Nat.eq_or_lt_of_le hm1 with rfl | hm
        · exact hc
        · exact hn3 m hm hm2
      · exact ⟨counter, le_refl _, by rw [heq]; exact r2 hc,
          fun m hm1 hm2 => by omega⟩
    · have heq : resolveLoop used base ext counter cur (fuel + 1) = cur := by
        simp only [resolveLoop, if_neg hmem]
      exact ⟨by rw [heq]; exact hmem, fun _ => heq, fun h => absurd h hmem⟩

lemma resolveName_hyp (used : List String) (name : String) :
    name ∉ used ∨
      ∃ n, 1 ≤ n ∧ n < 1 + (used.length + 1) ∧
        candName (lastDotSplit name).1 (lastDotSplit name).2 n ∉ used := by
  by_contra hcon
  push_neg at hcon
  obtain ⟨h1, h2⟩ := hcon
  have hnd : (name ::
      (List.range' 1 (used.length + 1)).map
        (candName (lastDotSplit name).1 (lastDotSplit name).2)).Nodup := by
    rw [List.nodup_cons]
    constructor
    · intro hmemb
      rcases List.mem_map.mp hmemb with ⟨n, _, hn⟩
      exact candName_ne name n hn
    · exact (List.nodup_range' 1 (used.length + 1)).map
        (candName_inj (lastDotSplit name).1 (lastDotSplit name).2)
  have hsub : ∀ x ∈ (name ::
      (List.range' 1 (used.length + 1)).map
        (candName (lastDotSplit name).1 (lastDotSplit name).2)), x ∈ used := by
    intro x hx
    rcases List.mem_cons.mp hx with rfl | hx2
    · exact h1
    · rcases List.mem_map.mp hx2 with ⟨n, hn, rfl⟩
      rw [List.mem_range'_1] at hn
      exact h2 n hn.1 (by omega)
  have hle := nodup_all_mem_length_le hnd hsub
  simp only [List.length_cons, List.length_map, List.length_range'] at hle
  omega

lemma resolveName_char (used : List String) (name : String) :
    resolveName used name ∉ used ∧
      (name ∉ used → resolveName used name = name) ∧
      (name ∈ used →
        ∃ n, 1 ≤ n ∧
          resolveName used name =
            candName (lastDotSplit name).1 (lastDotSplit name).2 n ∧
          ∀ m, 1 ≤ m → m < n →
            candName (lastDotSplit name).1 (lastDotSplit name).2 m ∈ used) :=
  resolveLoop_char used (lastDotSplit name).1 (lastDotSplit name).2
    (used.length + 1) 1 name (resolveName_hyp used name)

lemma resolveAll_length :
    ∀ (docs : List DocumentResult) (used : List String),
      (resolveAll docs used).length = docs.length := by
  intro docs
  induction docs with
  | nil => intro used; rfl
  | cons d ds ih => intro used; simp [resolveAll, ih]

lemma resolveAll_fresh :
    ∀ (docs : List DocumentResult) (used : List String),
      (resolveAll docs used).Nodup ∧ ∀ x ∈ resolveAll docs used, x ∉ used := by
  intro docs
  induction docs with
  | nil =>
    intro used
    exact ⟨List.nodup_nil, by simp [resolveAll]⟩
  | cons d ds ih =>
    intro used
    obtain ⟨ihnd, ihfresh⟩ := ih (resolveName used (exportName d) :: used)
    have hu : resolveName used (exportName d) ∉ used :=
      (resolveName_char used (exportName d)).1
    have hunfold : resolveAll (d :: ds) used =
        resolveName used (exportName d) ::
          resolveAll ds (resolveName used (exportName d) :: used) := rfl
    constructor
    · rw [hunfold, List.nodup_cons]
      refine ⟨fun hmem => ?_, ihnd⟩
      exact (ihfresh _ hmem) (List.mem_cons_self _ _)
    · intro x hx
      rw [hunfold, List.mem_cons] at hx
      rcases hx with rfl | hx2
      · exact hu
      · intro hxu
        exact (ihfresh x hx2) (List.mem_cons_of_mem _ hxu)

lemma resolveAll_char :
    ∀ (docs : List DocumentResult) (used : List String) (i : Nat),
      i < docs.length →
      ((resolveAll docs used).getD i "" ∉ (resolveAll docs used).take i ∧
        (resolveAll docs used).getD i "" ∉ used) ∧
      ((exportName (docs.getD i dummyDoc) ∉ (resolveAll docs used).take i ∧
          exportName (docs.getD i dummyDoc) ∉ used) →
        (resolveAll docs used).getD i "" = exportName (docs.getD i dummyDoc)) ∧
      ((exportName (docs.getD i dummyDoc) ∈ (resolveAll docs used).take i ∨
          exportName (docs.getD i dummyDoc) ∈ used) →
        ∃ n, 1 ≤ n ∧
          (resolveAll docs used).getD i "" =
            candName (lastDotSplit (exportName (docs.getD i dummyDoc))).1
              (lastDotSplit (exportName (docs.getD i dummyDoc))).2 n ∧
          ∀ m, 1 ≤ m → m < n →
            (candName (lastDotSplit (exportName (docs.getD i dummyDoc))).1
                (lastDotSplit (exportName (docs.getD i dummyDoc))).2 m ∈
              (resolveAll docs used).take i ∨
              candName (lastDotSplit (exportName (docs.getD i dummyDoc))).1
                (lastDotSplit (exportName (docs.getD i dummyDoc))).2 m ∈
                used)) := by
  intro docs
  induction docs with
  | nil =>
    intro used i hi
    simp at hi
  | cons d ds ih =>
    intro used i hi
    have hun : resolveAll (d :: ds) used =
        resolveName used (exportName d) ::
          resolveAll ds (resolveName used (exportName d) :: used) := rfl
    cases i with
    | zero =>
      rw [hun]
      simp only [List.getD_cons_zero, List.take_zero]
      obtain ⟨hc1, hc2, hc3⟩ := resolveName_char used (exportName d)
      refine ⟨⟨List.not_mem_nil _, hc1⟩, fun h => hc2 h.2, fun h => ?_⟩
      rcases h with h | h
      · exact absurd h (List.not_mem_nil _)
      · obtain ⟨n, hn1, hn2, hn3⟩ := hc3 h
        exact ⟨n, hn1, hn2, fun m hm1 hm2 => Or.inr (hn3 m hm1 hm2)⟩
    | succ j =>
      rw [hun]
      simp only [List.getD_cons_succ, List.take_succ_cons, List.length_cons] at hi ⊢
      have hj : j < ds.length := by omega
      obtain ⟨⟨i1a, i1b⟩, i2, i3⟩ :=
        ih (resolveName used (exportName d) :: used) j hj
      refine ⟨⟨?_, ?_⟩, ?_, ?_⟩
      · intro hmem
        rcases List.mem_cons.mp hmem with hequ | hmem2
        · exact i1b (by rw [hequ]; exact List.mem_cons_self _ _)
        · exact i1a hmem2
      · exact fun h => i1b (List.mem_cons_of_mem _ h)
      · rintro ⟨ha, hb⟩
        apply i2
        refine ⟨fun h => ha (List.mem_cons_of_mem _ h), fun h => ?_⟩
        rcases List.mem_cons.mp h with hequ | h2
        · exact ha (by rw [hequ]; exact List.mem_cons_self _ _)
        · exact hb h2
      · intro h
        have h2 : exportName (ds.getD j dummyDoc) ∈
            (resolveAll ds (resolveName used (exportName d) :: used)).take j ∨
            exportName (ds.getD j dummyDoc) ∈
              resolveName used (exportName d) :: used := by
          rcases h with h | h
          · rcases List.mem_cons.mp h with hequ | hT2
            · exact Or.inr (by rw [hequ]; exact List.mem_cons_self _ _)
            · exact Or.inl hT2
          · exact Or.inr (List.mem_cons_of_mem _ h)
        obtain ⟨n, hn1, hn2, hn3⟩ := i3 h2
        refine ⟨n, hn1, hn2, fun m hm1 hm2 => ?_⟩
        rcases hn3 m hm1 hm2 with hc | hc
        · exact Or.inl (List.mem_cons_of_mem _ hc)
        · rcases List.mem_cons.mp hc with hequ | hc2
          · exact Or.inl (by rw [hequ]; exact List.mem_cons_self _ _)
          · exact Or.inr hc2

/-- The concrete document of the spec's deduplication example: named
`a.pdf`, with annotated output. -/
def aPdfDoc : DocumentResult :=
  { id := "a", fileName := "a.pdf", status := "success", data := fun _ => none,
    annotatedBlob := true }

/-- Claim C1: export filename resolution.  For every document list the
resolved names are pairwise distinct, a document with an annotated image is
exported under its original base name with the `_annotated.jpg` suffix, a
collision is resolved by trying `` `${base}_${n}${ext}` `` for n = 1, 2, ...
until the name is unused (every earlier counter value is taken), and three
annotated documents all named `a.pdf` resolve in order to `a_annotated.jpg`,
`a_annotated_1.jpg`, `a_annotated_2.jpg`. -/
theorem claim_C1 :
    (∀ docs : List DocumentResult,
        (resolveAll docs []).length = docs.length ∧
        (resolveAll docs []).Nodup ∧
        ∀ i, i < docs.length →
          (resolveAll docs []).getD i "" ∉ (resolveAll docs []).take i ∧
          (exportName (docs.getD i dummyDoc) ∉ (resolveAll docs []).take i →
            (resolveAll docs []).getD i "" = exportName (docs.getD i dummyDoc)) ∧
          (exportName (docs.getD i dummyDoc) ∈ (resolveAll docs []).take i →
            ∃ n, 1 ≤ n ∧
              (resolveAll docs []).getD i "" =
                candName (lastDotSplit (exportName (docs.getD i dummyDoc))).1
                  (lastDotSplit (exportName (docs.getD i dummyDoc))).2 n ∧
              ∀ m, 1 ≤ m → m < n →
                candName (lastDotSplit (exportName (docs.getD i dummyDoc))).1
                  (lastDotSplit (exportName (docs.getD i dummyDoc))).2 m ∈
                  (resolveAll docs []).take i)) ∧
      (∀ doc : DocumentResult, doc.annotatedBlob = true →
        exportName doc = (lastDotSplit doc.fileName).1 ++ "_annotated.jpg") ∧
      resolveAll [aPdfDoc, aPdfDoc, aPdfDoc] [] =
        ["a_annotated.jpg", "a_annotated_1.jpg", "a_annotated_2.jpg"] := by
  refine ⟨fun docs => ⟨resolveAll_length docs [], (resolveAll_fresh docs []).1,
    fun i hi => ?_⟩, fun doc hann => ?_, ?_⟩
  · obtain ⟨⟨h1a, _⟩, h2, h3⟩ := resolveAll_char docs [] i hi
    refine ⟨h1a, fun hnm => h2 ⟨hnm, List.not_mem_nil _⟩, fun hm => ?_⟩
    obtain ⟨n, hn1, hn2, hn3⟩ := h3 (Or.inl hm)
    refine ⟨n, hn1, hn2, fun m hm1 hm2 => ?_⟩
    rcases hn3 m hm1 hm2 with hc | hc
    · exact hc
    · exact absurd hc (List.not_mem_nil _)
  · simp [exportName, hann]
  · decide

/-- Witness for C1: the theorem applied at the concrete three-`a.pdf`
document list, index 0. -/
theorem claim_C1_witness :
    (resolveAll [aPdfDoc, aPdfDoc, aPdfDoc] []).getD 0 "" ∉
      (resolveAll [aPdfDoc, aPdfDoc, aPdfDoc] []).take 0 :=
  ((claim_C1.1 [aPdfDoc, aPdfDoc, aPdfDoc]).2.2 0 (by decide)).1

/-- Split of a character list at every occurrence of a separator character,
mirroring the JavaScript `split` on a one-character separator: never empty,
keeps empty segments. -/
def splitOnChar (sep : Char) : List Char → List (List Char)
  | [] => [[]]
  | c :: cs =>
    match splitOnChar sep cs with
    | [] => [[]]
    | g :: gs => if c == sep then [] :: g :: gs else (c :: g) :: gs

/-- JavaScript `s.split(sep)` for a one-character separator. -/
def strSplit (s : String) (sep : Char) : List String :=
  (splitOnChar sep s.data).map (fun l => ⟨l⟩)

/-- JavaScript `s.trim()`: leading and trailing whitespace removed (modelled
on the ASCII whitespace characters, which cover the inputs at hand). -/
def strTrim (s : String) : String :=
  ⟨((s.data.dropWhile Char.isWhitespace).reverse.dropWhile
      Char.isWhitespace).reverse⟩

/-- JavaScript `s.startsWith(c)` for a one-character pattern. -/
def strFirstIs (s : String) (c : Char) : Bool :=
  match s.data with
  | [] => false
  | a :: _ => a == c

/-- JavaScript `s.endsWith(c)` for a one-character pattern. -/
def strLastIs (s : String) (c : Char) : Bool :=
  match s.data.getLast? with
  | some a => a == c
  | none => false

/-- JavaScript `s.replace(/\|/g, '')`: every pipe character removed. -/
def removePipes (s : String) : String :=
  ⟨s.data.filter (fun c => !(c == '|'))⟩

/-- A trimmed line that starts and ends with the pipe delimiter
(utils, line 194). -/
def isPipeLine (t : String) : Bool :=
  strFirstIs t '|' && strLastIs t '|'

/-- A markdown header-separator row (utils, line 196): removing all pipes
and trimming leaves a nonempty all-dash string (the regex `/^-+$/`). -/
def isSepLine (t : String) : Bool :=
  !(strTrim (removePipes t) == "") &&
    (strTrim (removePipes t)).data.all (fun c => c == '-')

/-- Cell extraction from a pipe row (utils, line 200):
`line.split('|').slice(1, -1).map(c => c.trim())`. -/
def rowCells (t : String) : List String :=
  (((strSplit t '|').drop 1).dropLast).map strTrim

/-- Embedding of the line loop of `parseMarkdownTable`
(utils, lines 192-207); the boolean is `tableStarted`, and returning `[]` in
the blank-line case models `break`. -/
def parseMDLines : List String → Bool → List (List String)
  | [], _ => []
  | l :: ls, started =>
    let t := strTrim l
    if isPipeLine t then
      if isSepLine t then parseMDLines ls started
      else rowCells t :: parseMDLines ls true
    else if started && (t == "") then []
    else parseMDLines ls started

/-- Embedding of `parseMarkdownTable` (utils, lines 187-210). -/
def parseMarkdownTable (markdown : String) : Option (List (List String)) :=
  let data := parseMDLines (strSplit markdown '\n') false
  if data.isEmpty then none else some data

/-- The line loop instrumented with 0-based source-line indices, used to
state which input lines contribute rows. -/
def parseMDLinesIdx : List (Nat × String) → Bool → List (Nat × List String)
  | [], _ => []
  | (i, l) :: ls, started =>
    let t := strTrim l
    if isPipeLine t then
      if isSepLine t then parseMDLinesIdx ls started
      else (i, rowCells t) :: parseMDLinesIdx ls true
    else if started && (t == "") then []
    else parseMDLinesIdx ls started

/-- The (line index, row) pairs contributed by an input text. -/
def contribRows (markdown : String) : List (Nat × List String) :=
  parseMDLinesIdx (strSplit markdown '\n').enum false

/-- State scanner for the line loop: final `tableStarted` flag, and whether
the loop broke on a blank line. -/
def mdScan : List String → Bool → Bool × Bool
  | [], b => (b, false)
  | l :: ls, b =>
    let t := strTrim l
    if isPipeLine t then
      if isSepLine t then mdScan ls b else mdScan ls true
    else if b && (t == "") then (b, true)
    else mdScan ls b

lemma parseMDLinesIdx_sound :
    ∀ (ps : List (Nat × String)) (b : Bool) (q : Nat × List String),
      q ∈ parseMDLinesIdx ps b →
      ∃ l, (q.1, l) ∈ ps ∧ isPipeLine (strTrim l) = true ∧
        isSepLine (strTrim l) = false ∧ q.2 = rowCells (strTrim l) := by
  intro ps
  induction ps with
  | nil =>
    intro b q hq
    simp [parseMDLinesIdx] at hq
  | cons p ps ih =>
    intro b q hq
    obtain ⟨i, l⟩ := p
    cases hp : isPipeLine (strTrim l) with
    | true =>
      cases hs : isSepLine (strTrim l) with
      | true =>
        rw [show parseMDLinesIdx ((i, l) :: ps) b = parseMDLinesIdx ps b by
          simp [parseMDLinesIdx, hp, hs]] at hq
        obtain ⟨w, hw1, hw2, hw3, hw4⟩ := ih b q hq
        exact ⟨w, List.mem_cons_of_mem _ hw1, hw2, hw3, hw4⟩
      | false =>
        rw [show parseMDLinesIdx ((i, l) :: ps) b =
            (i, rowCells (strTrim l)) :: parseMDLinesIdx ps true by
          simp [parseMDLinesIdx, hp, hs]] at hq
        rcases List.mem_cons.mp hq with rfl | hq2
        · exact ⟨l, List.mem_cons_self _ _, hp, hs, rfl⟩
        · obtain ⟨w, hw1, hw2, hw3, hw4⟩ := ih true q hq2
          exact ⟨w, List.mem_cons_of_mem _ hw1, hw2, hw3, hw4⟩
    | false =>
      cases hb : (b && (strTrim l == "")) with
      | true =>
        rw [show parseMDLinesIdx ((i, l) :: ps) b = [] by
          simp [parseMDLinesIdx, hp, hb]] at hq
        simp at hq
      | false =>
        rw [show parseMDLinesIdx ((i, l) :: ps) b = parseMDLinesIdx ps b by
          simp [parseMDLinesIdx, hp, hb]] at hq
        obtain ⟨w, hw1, hw2, hw3, hw4⟩ := ih b q hq
        exact ⟨w, List.mem_cons_of_mem _ hw1, hw2, hw3, hw4⟩

lemma parseMDLinesIdx_map :
    ∀ (ps : List (Nat × String)) (b : Bool),
      (parseMDLinesIdx ps b).map Prod.snd = parseMDLines (ps.map Prod.snd) b := by
  intro ps
  induction ps with
  | nil => intro b; rfl
  | cons p ps ih =>
    intro b
    obtain ⟨i, l⟩ := p
    cases hp : isPipeLine (strTrim l) with
    | true =>
      cases hs : isSepLine (strTrim l) with
      | true => simp [parseMDLinesIdx, parseMDLines, hp, hs, ih b]
      | false => simp [parseMDLinesIdx, parseMDLines, hp, hs, ih true]
    | false =>
      cases hb : (b && (strTrim l == "")) with
      | true => simp [parseMDLinesIdx, parseMDLines, hp, hb]
      | false => simp [parseMDLinesIdx, parseMDLines, hp, hb, ih b]

lemma parseMDLines_append :
    ∀ (xs ys : List String) (b : Bool),
      parseMDLines (xs ++ ys) b =
        parseMDLines xs b ++
          (if (mdScan xs b).2 then [] else parseMDLines ys (mdScan xs b).1) := by
  intro xs
  induction xs with
  | nil => intro ys b; simp [parseMDLines, mdScan]
  | cons l xs ih =>
    intro ys b
    cases hp : isPipeLine (strTrim l) with
    | true =>
      cases hs : isSepLine (strTrim l) with
      | true => simpa [parseMDLines, mdScan, hp, hs] using ih ys b
      | false => simpa [parseMDLines, mdScan, hp, hs] using ih ys true
    | false =>
      cases hb : (b && (strTrim l == "")) with
      | true => simp [parseMDLines, mdScan, hp, hb]
      | false => simpa [parseMDLines, mdScan, hp, hb] using ih ys b

lemma mdScan_started :
    ∀ (xs : List String) (b : Bool),
      (mdScan xs b).1 = (b || !(parseMDLines xs b).isEmpty) := by
  intro xs
  induction xs with
  | nil => intro b; simp [parseMDLines, mdScan]
  | cons l xs ih =>
    intro b
    cases hp : isPipeLine (strTrim l) with
    | true =>
      cases hs : isSepLine (strTrim l) with
      | true => simp [parseMDLines, mdScan, hp, hs, ih b]
      | false => simp [parseMDLines, mdScan, hp, hs, ih true]
    | false =>
      cases hb : (b && (strTrim l == "")) with
      | true =>
        have hbb : b = true := by
          cases b
          · simp at hb
          · rfl
        have ht : strTrim l = "" := by simpa [hbb] using hb
        have hpe : isPipeLine "" = false := rfl
        simp [parseMDLines, mdScan, hp, hb, hbb, ht, hpe]
      | false => simp [parseMDLines, mdScan, hp, hb, ih b]

lemma parseMDLines_blank_stop (pre post : List String) (bl : String)
    (hbl : strTrim bl = "") (hne : parseMDLines pre false ≠ []) :
    parseMDLines (pre ++ bl :: post) false = parseMDLines pre false := by
  rw [parseMDLines_append]
  cases hstop : (mdScan pre false).2 with
  | true => simp [hstop]
  | false =>
    have hst : (mdScan pre false).1 = true := by
      rw [mdScan_started]
      cases hpe : (parseMDLines pre false).isEmpty
      · simp
      · exact absurd (List.isEmpty_iff.mp hpe) hne
    have hpipe0 : isPipeLine "" = false := rfl
    have hzero : parseMDLines (bl :: post) true = [] := by
      simp [parseMDLines, hbl, hpipe0]
    simp [hstop, hst, hzero]

lemma parseMDLines_no_pipe :
    ∀ (ls : List String) (b : Bool),
      (∀ l ∈ ls, isPipeLine (strTrim l) = false) → parseMDLines ls b = [] := by
  intro ls
  induction ls with
  | nil => intro b _; rfl
  | cons l ls ih =>
    intro b h
    have hp := h l (List.mem_cons_self _ _)
    cases hb : (b && (strTrim l == "")) with
    | true => simp [parseMDLines, hp, hb]
    | false =>
      rw [show parseMDLines (l :: ls) b = parseMDLines ls b by
        simp [parseMDLines, hp, hb]]
      exact ih b (fun x hx => h x (List.mem_cons_of_mem _ hx))

lemma parseMDLines_skip (pre post : List String) (z : String)
    (hp : isPipeLine (strTrim z) = false) (hz : strTrim z ≠ "") :
    parseMDLines (pre ++ z :: post) false = parseMDLines (pre ++ post) false := by
  rw [parseMDLines_append, parseMDLines_append]
  cases hstop : (mdScan pre false).2 with
  | true => simp [hstop]
  | false =>
    have hskip : parseMDLines (z :: post) (mdScan pre false).1 =
        parseMDLines post (mdScan pre false).1 := by
      cases hc : (strTrim z == "") with
      | true => exact absurd (by simpa using hc) hz
      | false => simp [parseMDLines, hp, hc]
    simp [hstop, hskip]

/-- Claim C4: on `"| A | B |\n|---|---|\n| 1 | 2 |\n\nTrailing text"` the
extractor returns exactly the grid `[["A","B"],["1","2"]]` (trailing text
ignored), and on every text without a pipe-delimited line it returns
`none`. -/
theorem claim_C4 :
    parseMarkdownTable "| A | B |\n|---|---|\n| 1 | 2 |\n\nTrailing text" =
        some [["A", "B"], ["1", "2"]] ∧
      ∀ text : String,
        (∀ l ∈ strSplit text '\n', isPipeLine (strTrim l) = false) →
        parseMarkdownTable text = none := by
  constructor
  · decide
  · intro text h
    simp [parseMarkdownTable, parseMDLines_no_pipe (strSplit text '\n') false h]

/-- Witness for C4 at a concrete pipe-free input. -/
theorem claim_C4_witness :
    parseMarkdownTable "No table here.\nJust prose." = none :=
  claim_C4.2 "No table here.\nJust prose." (by decide)

/-- Counterexample to C5 as stated: in `"| A |\nX\n| B |"` the middle line
is neither pipe-delimited nor blank, yet lines 0 and 2 both contribute rows,
so the contributing lines do not form one contiguous block: a non-blank,
non-pipe line inside the scan is skipped rather than terminating the
table. -/
theorem claim_C5_counterexample :
    contribRows "| A |\nX\n| B |" = [(0, ["A"]), (2, ["B"])] ∧
      isPipeLine (strTrim "X") = false ∧ (strTrim "X" == "") = false := by
  decide

/-- Claim C5 (amended): cells are taken only from lines whose trimmed form
starts and ends with a pipe; all-dash-and-pipe separator lines are skipped;
the extractor result is the contributed rows in order; scanning stops at the
first blank line once a row has been contributed, so no later line
contributes; but a non-blank non-pipe line does not stop the scan (it is
skipped), so the contributing lines need not be contiguous. -/
theorem claim_C5 :
    (∀ md : String, ∀ q ∈ contribRows md,
        ∃ l, (q.1, l) ∈ (strSplit md '\n').enum ∧
          isPipeLine (strTrim l) = true ∧ isSepLine (strTrim l) = false ∧
          q.2 = rowCells (strTrim l)) ∧
      (∀ md : String,
        parseMarkdownTable md =
          if contribRows md = [] then none
          else some ((contribRows md).map Prod.snd)) ∧
      (∀ (pre post : List String) (bl : String), strTrim bl = "" →
        parseMDLines pre false ≠ [] →
        parseMDLines (pre ++ bl :: post) false = parseMDLines pre false) ∧
      (∀ (pre post : List String) (z : String),
        isPipeLine (strTrim z) = false → strTrim z ≠ "" →
        parseMDLines (pre ++ z :: post) false =
          parseMDLines (pre ++ post) false) := by
  refine ⟨?_, ?_, parseMDLines_blank_stop, parseMDLines_skip⟩
  · intro md q hq
    exact parseMDLinesIdx_sound (strSplit md '\n').enum false q hq
  · intro md
    have hmap : (contribRows md).map Prod.snd =
        parseMDLines (strSplit md '\n') false := by
      rw [contribRows, parseMDLinesIdx_map, List.enum_map_snd]
    by_cases hc : contribRows md = []
    · have hz : parseMDLines (strSplit md '\n') false = [] := by
        rw [← hmap, hc]
        rfl
      simp [parseMarkdownTable, hc, hz]
    · have hne : parseMDLines (strSplit md '\n') false ≠ [] := by
        rw [← hmap]
        exact fun h => hc (List.map_eq_nil_iff.mp h)
      simp [parseMarkdownTable, hc, ← hmap, List.isEmpty_iff, hne]

/-- Witness for C5: the blank-line stop applied at a concrete split input,
and the soundness conjunct applied at a concrete contributed row. -/
theorem claim_C5_witness :
    parseMDLines (["| A |"] ++ "" :: ["| Z |"]) false =
      parseMDLines ["| A |"] false :=
  claim_C5.2.2.1 ["| A |"] ["| Z |"] "" (by decide) (by decide)

/-- A canvas-2d drawing command issued by `generateAnnotatedImage`
(utils, lines 122-148).  Coordinates and sizes are exact rationals (the
JavaScript arithmetic involved is modelled exactly). -/
inductive DrawCmd where
  | strokeRect (x y w h lineWidth : Rat) (strokeStyle : String)
  | fillRect (x y w h : Rat) (fillStyle : String)
  | fillText (text : String) (x y fontSize : Rat) (fillStyle : String)
deriving DecidableEq

/-- Ambient browser state available to the renderer: font metrics
(`ctx.measureText`, a function of the font size set just before and the
text), the JPEG encoder behind `canvas.toBlob`, and the clock and PRNG the
code could consult but does not. -/
structure RenderEnv where
  measure : Rat → String → Rat
  encode : List Nat → List DrawCmd → List Nat
  now : Nat
  random : Nat → Nat

/-- The body of the per-field loop of `generateAnnotatedImage`
(utils, lines 111-150): nothing is drawn when the field has no extracted
value or the value has no `box_2d`; otherwise the stroked box, the
transparent fill, the label tag and the label text are drawn, with no
validity check on the box. -/
def renderFieldCmds (measure : Rat → String → Rat) (W H : Nat)
    (field : FieldDefinition) (extracted : Option ExtractedValue) :
    List DrawCmd :=
  match extracted with
  | none => []
  | some e =>
    match e.box_2d with
    | none => []
    | some (ymin, xmin, ymax, xmax) =>
      let x : Rat := ((xmin : Rat) / 1000) * (W : Rat)
      let y : Rat := ((ymin : Rat) / 1000) * (H : Rat)
      let w : Rat := (((xmax : Rat) - (xmin : Rat)) / 1000) * (W : Rat)
      let h : Rat := (((ymax : Rat) - (ymin : Rat)) / 1000) * (H : Rat)
      let lineWidth : Rat := max 2 ((W : Rat) * (3 / 1000))
      let fontSize : Rat := max 12 ((W : Rat) * (15 / 1000))
      let textW : Rat := measure fontSize field.name + 4 * 2
      let textH : Rat := fontSize + 4 * 2
      let labelY : Rat := if y - textH > 0 then y - textH else y
      [DrawCmd.strokeRect x y w h lineWidth field.color,
       DrawCmd.fillRect x y w h (field.color ++ "20"),
       DrawCmd.fillRect x labelY textW textH field.color,
       DrawCmd.fillText field.name (x + 4) (labelY + 4) fontSize "white"]

/-- The full drawing pass of `generateAnnotatedImage` (utils,
lines 111-150): fields processed in order, commands concatenated. -/
def annotateCommands (measure : Rat → String → Rat) (W H : Nat)
    (data : String → Option ExtractedValue)
    (fields : List FieldDefinition) : List DrawCmd :=
  (fields.map (fun f => renderFieldCmds measure W H f (data f.key))).flatten

/-- Embedding of `generateAnnotatedImage` (utils, lines 101-164): draw the
per-field annotations on the rasterized canvas and encode the result as a
JPEG; the encoded bytes are produced by the environment's encoder from the
canvas contents and the drawing commands. -/
def generateAnnotatedImage (env : RenderEnv) (canvas : List Nat) (W H : Nat)
    (data : String → Option ExtractedValue)
    (fields : List FieldDefinition) : List Nat :=
  env.encode canvas (annotateCommands env.measure W H data fields)

/-- A normalized bounding box satisfying the documented invariant
`0 ≤ ymin < ymax ≤ 1000` and `0 ≤ xmin < xmax ≤ 1000`. -/
def validBox (b : Int × Int × Int × Int) : Prop :=
  0 ≤ b.1 ∧ b.1 < b.2.2.1 ∧ b.2.2.1 ≤ 1000 ∧
    0 ≤ b.2.1 ∧ b.2.1 < b.2.2.2 ∧ b.2.2.2 ≤ 1000

/-- A concrete field definition, for witnesses. -/
def cField : FieldDefinition :=
  { id := "f1", key := "amount", name := "Amount", color := "#FF0000" }

/-- Claim C3: for a valid normalized box, the first command drawn is the
stroked rectangle with origin `(xmin/1000*W, ymin/1000*H)`, size
`((xmax-xmin)/1000*W, (ymax-ymin)/1000*H)` and stroke width
`max(2, 0.003*W)`; the rectangle is nonnegative, lies inside
`[0,W] x [0,H]`, and its area is `(xmax-xmin)*(ymax-ymin)/10^6 * (W*H)`,
hence scales linearly with `W*H`. -/
theorem claim_C3 (measure : Rat → String → Rat) (W H : Nat)
    (field : FieldDefinition) (v : Option String)
    (ymin xmin ymax xmax : Int) (hb : validBox (ymin, xmin, ymax, xmax)) :
    (renderFieldCmds measure W H field
        (some ⟨v, some (ymin, xmin, ymax, xmax)⟩)).head? =
      some (DrawCmd.strokeRect (((xmin : Rat) / 1000) * (W : Rat))
        (((ymin : Rat) / 1000) * (H : Rat))
        ((((xmax : Rat) - (xmin : Rat)) / 1000) * (W : Rat))
        ((((ymax : Rat) - (ymin : Rat)) / 1000) * (H : Rat))
        (max 2 ((W : Rat) * (3 / 1000))) field.color) ∧
      0 ≤ ((xmin : Rat) / 1000) * (W : Rat) ∧
      0 ≤ ((ymin : Rat) / 1000) * (H : Rat) ∧
      0 ≤ (((xmax : Rat) - (xmin : Rat)) / 1000) * (W : Rat) ∧
      0 ≤ (((ymax : Rat) - (ymin : Rat)) / 1000) * (H : Rat) ∧
      ((xmin : Rat) / 1000) * (W : Rat) +
          (((xmax : Rat) - (xmin : Rat)) / 1000) * (W : Rat) ≤ (W : Rat) ∧
      ((ymin : Rat) / 1000) * (H : Rat) +
          (((ymax : Rat) - (ymin : Rat)) / 1000) * (H : Rat) ≤ (H : Rat) ∧
      ((((xmax : Rat) - (xmin : Rat)) / 1000) * (W : Rat)) *
          ((((ymax : Rat) - (ymin : Rat)) / 1000) * (H : Rat)) =
        (((xmax : Rat) - (xmin : Rat)) * ((ymax : Rat) - (ymin : Rat)) /
            1000000) * ((W : Rat) * (H : Rat)) := by
  obtain ⟨h1, h2, h3, h4, h5, h6⟩ := hb
  have hW : (0 : Rat) ≤ (W : Rat) := Nat.cast_nonneg W
  have hH : (0 : Rat) ≤ (H : Rat) := Nat.cast_nonneg H
  have hxm : (0 : Rat) ≤ (xmin : Rat) := by exact_mod_cast h4
  have hym : (0 : Rat) ≤ (ymin : Rat) := by exact_mod_cast h1
  have hxd : (0 : Rat) ≤ (xmax : Rat) - (xmin : Rat) := by
    have : (xmin : Rat) ≤ (xmax : Rat) := by exact_mod_cast le_of_lt h5
    linarith
  have hyd : (0 : Rat) ≤ (ymax : Rat) - (ymin : Rat) := by
    have : (ymin : Rat) ≤ (ymax : Rat) := by exact_mod_cast le_of_lt h2
    linarith
  have hx1000 : (xmax : Rat) ≤ 1000 := by exact_mod_cast h6
  have hy1000 : (ymax : Rat) ≤ 1000 := by exact_mod_cast h3
  refine ⟨rfl, ?_, ?_, ?_, ?_, ?_, ?_, by ring⟩
  · exact mul_nonneg (div_nonneg hxm (by norm_num)) hW
  · exact mul_nonneg (div_nonneg hym (by norm_num)) hH
  · exact mul_nonneg (div_nonneg hxd (by norm_num)) hW
  · exact mul_nonneg (div_nonneg hyd (by norm_num)) hH
  · have hsum : ((xmin : Rat) / 1000) * (W : Rat) +
        (((xmax : Rat) - (xmin : Rat)) / 1000) * (W : Rat) =
        ((xmax : Rat) / 1000) * (W : Rat) := by ring
    rw [hsum]
    have hle1 : (xmax : Rat) / 1000 ≤ 1 := by
      rw [div_le_one (by norm_num : (0 : Rat) < 1000)]
      exact hx1000
    calc ((xmax : Rat) / 1000) * (W : Rat) ≤ 1 * (W : Rat) :=
          mul_le_mul_of_nonneg_right hle1 hW
      _ = (W : Rat) := one_mul _
  · have hsum : ((ymin : Rat) / 1000) * (H : Rat) +
        (((ymax : Rat) - (ymin : Rat)) / 1000) * (H : Rat) =
        ((ymax : Rat) / 1000) * (H : Rat) := by ring
    rw [hsum]
    have hle1 : (ymax : Rat) / 1000 ≤ 1 := by
      rw [div_le_one (by norm_num : (0 : Rat) < 1000)]
      exact hy1000
    calc ((ymax : Rat) / 1000) * (H : Rat) ≤ 1 * (H : Rat) :=
          mul_le_mul_of_nonneg_right hle1 hH
      _ = (H : Rat) := one_mul _

/-- Witness for C3 at a concrete valid box on a 200 x 100 canvas. -/
theorem claim_C3_witness :
    (renderFieldCmds (fun _ _ => 0) 200 100 cField
        (some ⟨some "42", some (10, 20, 500, 800)⟩)).head? =
      some (DrawCmd.strokeRect
        ((((20 : Int) : Rat) / 1000) * ((200 : Nat) : Rat))
        ((((10 : Int) : Rat) / 1000) * ((100 : Nat) : Rat))
        (((((800 : Int) : Rat) - ((20 : Int) : Rat)) / 1000) *
          ((200 : Nat) : Rat))
        (((((500 : Int) : Rat) - ((10 : Int) : Rat)) / 1000) *
          ((100 : Nat) : Rat))
        (max 2 (((200 : Nat) : Rat) * (3 / 1000))) cField.color) :=
  (claim_C3 (fun _ _ => 0) 200 100 cField (some "42") 10 20 500 800
    (by constructor <;> simp)).1

/-- Counterexample to C2 as stated: the renderer does not validate the box:
with the invalid box `(500, 500, 100, 100)` (ymax < ymin and xmax < xmin)
the field is still drawn (the command list is nonempty), not treated like an
absent box. -/
theorem claim_C2_counterexample :
    renderFieldCmds (fun _ _ => 0) 100 100 cField
        (some { value := some "x", box_2d := some (500, 500, 100, 100) }) ≠
        [] ∧
      ¬ validBox (500, 500, 100, 100) := by
  constructor
  · exact List.cons_ne_nil _ _
  · intro h
    obtain ⟨_, h2, _⟩ := h
    simp at h2

/-- Claim C2 (amended): the renderer skips exactly the fields whose
extracted value is absent or whose `box_2d` is absent, and never raises an
error (it is a total function); a present `box_2d` is drawn even when it
violates the `0 ≤ min < max ≤ 1000` invariant. -/
theorem claim_C2 (measure : Rat → String → Rat) (W H : Nat)
    (field : FieldDefinition) (extracted : Option ExtractedValue) :
    renderFieldCmds measure W H field extracted = [] ↔
      (extracted = none ∨ ∃ e, extracted = some e ∧ e.box_2d = none) := by
  cases extracted with
  | none => simp [renderFieldCmds]
  | some e =>
    cases hbox : e.box_2d with
    | none => simp [renderFieldCmds, hbox]
    | some b =>
      obtain ⟨ymin, xmin, ymax, xmax⟩ := b
      simp [renderFieldCmds, hbox]

/-- Witness for C2 at a concrete absent extraction. -/
theorem claim_C2_witness :
    renderFieldCmds (fun _ _ => 0) 100 100 cField none = [] :=
  (claim_C2 (fun _ _ => 0) 100 100 cField none).mpr (Or.inl rfl)

/-- Two environments that agree on font metrics and the encoder but differ
in clock and PRNG. -/
def envA : RenderEnv :=
  { measure := fun _ _ => 0, encode := fun c _ => c, now := 0,
    random := fun n => n }

def envB : RenderEnv :=
  { measure := fun _ _ => 0, encode := fun c _ => c, now := 1,
    random := fun _ => 7 }

/-- Claim C9: annotation rendering is deterministic: the encoded output is a
function of the canvas contents, the per-field data, the field definitions
and the (font metric, encoder) environment only; it does not depend on the
clock or the PRNG the browser environment also provides. -/
theorem claim_C9 (env1 env2 : RenderEnv) (canvas : List Nat) (W H : Nat)
    (data : String → Option ExtractedValue) (fields : List FieldDefinition)
    (hm : env1.measure = env2.measure) (he : env1.encode = env2.encode) :
    generateAnnotatedImage env1 canvas W H data fields =
      generateAnnotatedImage env2 canvas W H data fields := by
  unfold generateAnnotatedImage
  rw [hm, he]

/-- Witness for C9: two invocations under environments differing in clock
and PRNG produce identical output. -/
theorem claim_C9_witness :
    generateAnnotatedImage envA [1, 2, 3] 100 100 (fun _ => none) [cField] =
      generateAnnotatedImage envB [1, 2, 3] 100 100 (fun _ => none) [cField] :=
  claim_C9 envA envB [1, 2, 3] 100 100 (fun _ => none) [cField] rfl rfl

/-- The fixed archive subfolder name (utils, line 224). -/
def folderNameDef : String := "annotated_documents"

/-- One row of the primary audit sheet (utils, lines 275-307): the file-name
cell with its optional hyperlink target, the status cell, one value cell per
field and one serialized-box cell per field. -/
structure AuditRow where
  fileNameCell : String
  link : Option String
  statusCell : String
  valueCells : List String
  coordCells : List String

def dummyRow : AuditRow :=
  { fileNameCell := "", link := none, statusCell := "", valueCells := [],
    coordCells := [] }

def dummyField : FieldDefinition := { id := "", key := "", name := "", color := "" }

/-- The `filenameMap` of utils, line 228: document id to resolved name, set
in document order (a later `set` on the same id overwrites). -/
def filenameAssoc (docs : List DocumentResult) : List (String × String) :=
  (docs.zip (resolveAll docs [])).map (fun p => (p.1.id, p.2))

/-- JavaScript `Map.get`: the value of the last entry set for the key. -/
def mapGet (m : List (String × String)) (k : String) : Option String :=
  (m.reverse.find? (fun p => p.1 == k)).map Prod.snd

/-- `JSON.stringify` of a `box_2d` array (utils, line 284). -/
def serializeBox (b : Int × Int × Int × Int) : String :=
  "[" ++ toString b.1 ++ "," ++ toString b.2.1 ++ "," ++ toString b.2.2.1 ++
    "," ++ toString b.2.2.2 ++ "]"

/-- A value cell: `extracted?.value || ''` (utils, line 283). -/
def cellValue (e : Option ExtractedValue) : String :=
  match e with
  | some ev => ev.value.getD ""
  | none => ""

/-- A coordinates cell:
`extracted?.box_2d ? JSON.stringify(extracted.box_2d) : ''`
(utils, line 284). -/
def cellCoords (e : Option ExtractedValue) : String :=
  match e with
  | some ev =>
    match ev.box_2d with
    | some b => serializeBox b
    | none => ""
  | none => ""

/-- The hyperlink set on the file-name cell (utils, lines 296-306): present
only when the looked-up resolved name is truthy (nonempty); its target is
`` `${folderName}/${uniqueName}` ``. -/
def linkFor (fmap : List (String × String)) (docId : String) : Option String :=
  match mapGet fmap docId with
  | some u => if u == "" then none else some (folderNameDef ++ "/" ++ u)
  | none => none

/-- One audit row (utils, lines 275-287 and 291-307). -/
def auditRow (fields : List FieldDefinition) (fmap : List (String × String))
    (doc : DocumentResult) : AuditRow :=
  { fileNameCell := doc.fileName
  , statusCell := doc.status
  , valueCells := fields.map (fun f => cellValue (doc.data f.key))
  , coordCells := fields.map (fun f => cellCoords (doc.data f.key))
  , link := linkFor fmap doc.id }

/-- The primary audit sheet: one row per document, in document order. -/
def auditRows (fields : List FieldDefinition)
    (docs : List DocumentResult) : List AuditRow :=
  docs.map (auditRow fields (filenameAssoc docs))

/-- The files bundled in the archive subfolder (utils, lines 254-262):
resolved name with a flag for annotated blob versus original file. -/
def bundledFiles (docs : List DocumentResult) : List (String × Bool) :=
  (docs.zip (resolveAll docs [])).map (fun p => (p.2, p.1.annotatedBlob))

/-- The reconciliation result as consumed by the packager. -/
structure RecInput where
  report : String
  code : String

/-- The archive assembled by `exportToZip`. -/
structure Archive where
  folder : String
  files : List (String × Bool)
  rows : List AuditRow
  sheetNames : List String
  zipFileName : String

/-- Whether the CDN-loaded libraries are present on `window`. -/
structure ExportEnv where
  xlsxLoaded : Bool
  jszipLoaded : Bool

/-- Outcome of an export: an early abort with a user-visible `alert`, or the
assembled archive offered as a download. -/
inductive ExportOutcome where
  | libsMissing (notice : String)
  | download (archive : Archive)

/-- Embedding of `exportToZip` (utils, lines 212-352): the library guard of
lines 217-221 aborts with an alert before any packaging work; otherwise the
files are bundled, the audit sheet built, and the reconcile sheets appended
when a reconcile result is present (the joined-data sheet only when its
report contains an extractable markdown table). -/
def exportToZip (env : ExportEnv) (fields : List FieldDefinition)
    (docs : List DocumentResult) (rec : Option RecInput) : ExportOutcome :=
  if !env.xlsxLoaded || !env.jszipLoaded then
    ExportOutcome.libsMissing
      "Export libraries are still loading. Please try again in a moment."
  else
    ExportOutcome.download
      { folder := folderNameDef
      , files := bundledFiles docs
      , rows := auditRows fields docs
      , sheetNames :=
          ["Source Data (Tick)"] ++
            (match rec with
             | some r =>
               (match parseMarkdownTable r.report with
                | some _ => ["Joined Data Details"]
                | none => []) ++ ["Analysis Report", "Python Code"]
             | none => [])
      , zipFileName := "TickAndTie_Audit_Annotated.zip" }

/-- Claim C7: when the spreadsheet or archive library is unavailable, the
export aborts with the user-visible notice before any packaging work, and no
archive is produced. -/
theorem claim_C7 (env : ExportEnv) (fields : List FieldDefinition)
    (docs : List DocumentResult) (rec : Option RecInput)
    (h : env.xlsxLoaded = false ∨ env.jszipLoaded = false) :
    exportToZip env fields docs rec =
        ExportOutcome.libsMissing
          "Export libraries are still loading. Please try again in a moment." ∧
      ∀ a : Archive,
        exportToZip env fields docs rec ≠ ExportOutcome.download a := by
  have hcond : (!env.xlsxLoaded || !env.jszipLoaded) = true := by
    rcases h with h | h <;> simp [h]
  constructor
  · simp [exportToZip, hcond]
  · intro a
    simp [exportToZip, hcond]

/-- Witness for C7: the spreadsheet library missing. -/
theorem claim_C7_witness :
    exportToZip { xlsxLoaded := false, jszipLoaded := true } [] [] none =
      ExportOutcome.libsMissing
        "Export libraries are still loading. Please try again in a moment." :=
  (claim_C7 { xlsxLoaded := false, jszipLoaded := true } [] [] none
    (Or.inl rfl)).1

lemma getD_map {α β : Type} (f : α → β) (l : List α) (d : α) (d2 : β) :
    ∀ i, i < l.length → (l.map f).getD i d2 = f (l.getD i d) := by
  induction l with
  | nil => intro i hi; simp at hi
  | cons a l ih =>
    intro i hi
    cases i with
    | zero => rfl
    | succ j =>
      simp only [List.map_cons, List.getD_cons_succ]
      exact ih j (by simpa using hi)

lemma mapGet_cons (k0 v0 : String) (rest : List (String × String))
    (k : String) :
    mapGet ((k0, v0) :: rest) k =
      match mapGet rest k with
      | some v => some v
      | none => if k0 == k then some v0 else none := by
  unfold mapGet
  rw [List.reverse_cons, List.find?_append]
  cases hf : rest.reverse.find? (fun p => p.1 == k) with
  | some q => simp [hf, Option.or]
  | none =>
    cases hk : (k0 == k) with
    | true => simp [hf, Option.or, List.find?, hk]
    | false => simp [hf, Option.or, List.find?, hk]

lemma mapGet_zip_nodup :
    ∀ (ids vs : List String), ids.Nodup → vs.length = ids.length →
      ∀ i, i < ids.length →
        mapGet (ids.zip vs) (ids.getD i "") = some (vs.getD i "") := by
  intro ids
  induction ids with
  | nil => intro vs _ _ i hi; simp at hi
  | cons k ks ih =>
    intro vs hnd hlen i hi
    cases vs with
    | nil => simp at hlen
    | cons v vs2 =>
      rw [List.nodup_cons] at hnd
      rw [show (k :: ks).zip (v :: vs2) = (k, v) :: ks.zip vs2 from rfl]
      cases i with
      | zero =>
        simp only [List.getD_cons_zero]
        rw [mapGet_cons]
        have hnone : mapGet (ks.zip vs2) k = none := by
          unfold mapGet
          have hfind : (ks.zip vs2).reverse.find? (fun p => p.1 == k) = none := by
            rw [List.find?_eq_none]
            intro x hx
            rw [List.mem_reverse] at hx
            obtain ⟨x1, x2⟩ := x
            have hxk : x1 ∈ ks := (List.of_mem_zip hx).1
            simp only [beq_iff_eq]
            intro heq
            exact hnd.1 (heq ▸ hxk)
          rw [hfind]
          rfl
        rw [hnone]
        simp
      | succ j =>
        simp only [List.getD_cons_succ]
        have hj : j < ks.length := by
          simp only [List.length_cons] at hi
          omega
        rw [mapGet_cons, ih vs2 hnd.2 (by simpa using hlen) j hj]

lemma zip_map_id_eq (docs : List DocumentResult) :
    ∀ rs : List String,
      (docs.zip rs).map (fun p => (p.1.id, p.2)) =
        (docs.map (fun d => d.id)).zip rs := by
  induction docs with
  | nil => intro rs; rfl
  | cons d ds ih =>
    intro rs
    cases rs with
    | nil => rfl
    | cons r rs2 => simp [ih rs2]

lemma mapGet_filenameAssoc (docs : List DocumentResult)
    (hids : (docs.map (fun d => d.id)).Nodup) (i : Nat)
    (hi : i < docs.length) :
    mapGet (filenameAssoc docs) ((docs.getD i dummyDoc).id) =
      some ((resolveAll docs []).getD i "") := by
  have hassoc : filenameAssoc docs =
      (docs.map (fun d => d.id)).zip (resolveAll docs []) := by
    unfold filenameAssoc
    exact zip_map_id_eq docs (resolveAll docs [])
  have hid : (docs.getD i dummyDoc).id =
      (docs.map (fun d => d.id)).getD i "" := by
    rw [getD_map (fun d => d.id) docs dummyDoc "" i hi]
  rw [hassoc, hid]
  exact mapGet_zip_nodup (docs.map (fun d => d.id)) (resolveAll docs [])
    hids (by rw [resolveAll_length, List.length_map]) i
    (by rw [List.length_map]; exact hi)

/-- Claim C6 (amended): provided document ids are pairwise distinct, the
audit sheet has exactly one row per document in order; the file-name cell
holds the document's display `fileName` (not the resolved export name); a
field with an absent extracted value (or an absent `value`) yields an empty
value cell; the bounding-box cell holds the serialized box, or is empty when
no box is present; and the file-name cell links to the bundled subfolder
joined with the document's resolved filename whenever that resolved name is
nonempty — a document whose resolved name is empty gets no hyperlink. -/
theorem claim_C6 (fields : List FieldDefinition) (docs : List DocumentResult)
    (hids : (docs.map (fun d => d.id)).Nodup) :
    (auditRows fields docs).length = docs.length ∧
      ∀ i, i < docs.length →
        ((auditRows fields docs).getD i dummyRow).fileNameCell =
            (docs.getD i dummyDoc).fileName ∧
          ((auditRows fields docs).getD i dummyRow).statusCell =
            (docs.getD i dummyDoc).status ∧
          ((auditRows fields docs).getD i dummyRow).valueCells.length =
            fields.length ∧
          ((auditRows fields docs).getD i dummyRow).coordCells.length =
            fields.length ∧
          (∀ j, j < fields.length →
            ((docs.getD i dummyDoc).data (fields.getD j dummyField).key =
                none →
              ((auditRows fields docs).getD i dummyRow).valueCells.getD j
                "?" = "") ∧
            (∀ e, (docs.getD i dummyDoc).data
                (fields.getD j dummyField).key = some e → e.value = none →
              ((auditRows fields docs).getD i dummyRow).valueCells.getD j
                "?" = "") ∧
            (∀ e b, (docs.getD i dummyDoc).data
                (fields.getD j dummyField).key = some e →
              e.box_2d = some b →
              ((auditRows fields docs).getD i dummyRow).coordCells.getD j
                "?" = serializeBox b) ∧
            (∀ e, (docs.getD i dummyDoc).data
                (fields.getD j dummyField).key = some e → e.box_2d = none →
              ((auditRows fields docs).getD i dummyRow).coordCells.getD j
                "?" = "")) ∧
          ((resolveAll docs []).getD i "" ≠ "" →
            ((auditRows fields docs).getD i dummyRow).link =
              some (folderNameDef ++ "/" ++ (resolveAll docs []).getD i "")) ∧
          ((resolveAll docs []).getD i "" = "" →
            ((auditRows fields docs).getD i dummyRow).link = none) := by
  refine ⟨by simp [auditRows], fun i hi => ?_⟩
  have hrow : (auditRows fields docs).getD i dummyRow =
      auditRow fields (filenameAssoc docs) (docs.getD i dummyDoc) := by
    unfold auditRows
    exact getD_map _ docs dummyDoc dummyRow i hi
  have hlink := mapGet_filenameAssoc docs hids i hi
  refine ⟨by rw [hrow]; rfl, by rw [hrow]; rfl, by rw [hrow]; simp [auditRow],
    by rw [hrow]; simp [auditRow], fun j hj => ?_, ?_, ?_⟩
  · have hv : (auditRow fields (filenameAssoc docs)
        (docs.getD i dummyDoc)).valueCells.getD j "?" =
        cellValue ((docs.getD i dummyDoc).data
          (fields.getD j dummyField).key) := by
      simp only [auditRow]
      exact getD_map _ fields dummyField "?" j hj
    have hcc : (auditRow fields (filenameAssoc docs)
        (docs.getD i dummyDoc)).coordCells.getD j "?" =
        cellCoords ((docs.getD i dummyDoc).data
          (fields.getD j dummyField).key) := by
      simp only [auditRow]
      exact getD_map _ fields dummyField "?" j hj
    refine ⟨fun hd => ?_, fun e hd hvn => ?_, fun e b hd hb => ?_,
      fun e hd hb => ?_⟩
    · rw [hrow, hv, hd]
      rfl
    · rw [hrow, hv, hd]
      simp [cellValue, hvn]
    · rw [hrow, hcc, hd]
      simp [cellCoords, hb]
    · rw [hrow, hcc, hd]
      simp [cellCoords, hb]
  · intro hne
    have hbne : ((resolveAll docs []).getD i "" == "") = false := by
      simpa using hne
    rw [hrow]
    show linkFor (filenameAssoc docs) (docs.getD i dummyDoc).id = _
    simp only [linkFor, hlink, hbne]
    rfl
  · intro hz
    rw [hrow]
    show linkFor (filenameAssoc docs) (docs.getD i dummyDoc).id = _
    simp only [linkFor, hlink, hz]
    rfl

/-- A document with an empty file name and no annotated output, used to
refute C6 as stated. -/
def cexDoc : DocumentResult :=
  { id := "d0", fileName := "", status := "failure", data := fun _ => none,
    annotatedBlob := false }

/-- Counterexample to C6 as stated: a document whose file name is empty and
which has no annotated image resolves to the empty export filename, which is
falsy in the hyperlink guard, so its file-name cell carries no hyperlink at
all (the claim requires one for every document). -/
theorem claim_C6_counterexample :
    ((auditRows [] [cexDoc]).getD 0 dummyRow).link = none ∧
      resolveAll [cexDoc] [] = [""] := by
  constructor
  · rfl
  · rfl

/-- A document with a normal file name and annotated output. -/
def okDoc : DocumentResult :=
  { id := "d1", fileName := "inv.pdf", status := "success",
    data := fun _ => none, annotatedBlob := true }

/-- Witness for C6: the hyperlink component at a concrete document whose
resolved name is nonempty. -/
theorem claim_C6_witness :
    ((auditRows [cField] [okDoc]).getD 0 dummyRow).link =
      some (folderNameDef ++ "/" ++ (resolveAll [okDoc] []).getD 0 "") :=
  ((claim_C6 [cField] [okDoc] (by simp)).2 0 (by simp)).2.2.2.2.2.1
    (by decide)

/-- Index of the first occurrence of a pattern in a character list, mirroring
a left-to-right regex scan. -/
def findSub (pat : List Char) : List Char → Option Nat
  | [] => if pat.isEmpty then some 0 else none
  | c :: cs =>
    if pat.isPrefixOf (c :: cs) then some 0
    else (findSub pat cs).map (fun n => n + 1)

/-- Embedding of the regex match
`report.match(/<JSON_RESULT>([\s\S]*?)<\/JSON_RESULT>/)` of
geminiService, line 152: the capture runs from the end of the first opening
tag to the first closing tag after it; `none` when either tag is missing in
that order. -/
def extractJsonBlock (report : String) : Option String :=
  match findSub "<JSON_RESULT>".data report.data with
  | none => none
  | some i =>
    match findSub "</JSON_RESULT>".data
        (report.data.drop (i + "<JSON_RESULT>".data.length)) with
    | none => none
    | some j =>
      some ⟨(report.data.drop (i + "<JSON_RESULT>".data.length)).take j⟩

/-- A reconciliation result (types): report text, executed code listing, and
the optionally parsed joined data, generic over the parsed JSON type. -/
structure GenReconcileResult (α : Type) where
  report : String
  code : String
  joinedData : Option α

/-- Embedding of the tail of `reconcileData` (geminiService, lines 150-161):
the JSON block is extracted from the report; a present nonempty capture is
parsed inside a `try`/`catch` whose catch merely logs, so a parse failure
leaves `joinedData` undefined; the result record is returned either way.
The JSON parser is the external `JSON.parse`, passed as a parameter. -/
def reconcileFinish {α : Type} (parse : String → Except String α)
    (report code : String) : GenReconcileResult α :=
  { report := report
  , code := code
  , joinedData :=
      match extractJsonBlock report with
      | some s =>
        if s == "" then none
        else
          match parse s with
          | Except.ok v => some v
          | Except.error _ => none
      | none => none }

/-- Claim C8: a malformed JSON payload inside a `<JSON_RESULT>` block never
fails the reconciliation call: the result is still returned with its report
and code intact and `joinedData` absent. -/
theorem claim_C8 {α : Type} (parse : String → Except String α)
    (report code s msg : String)
    (hs : extractJsonBlock report = some s)
    (hp : parse s = Except.error msg) :
    reconcileFinish parse report code =
      { report := report, code := code, joinedData := none } := by
  unfold reconcileFinish
  simp only [hs]
  cases hbe : (s == "") with
  | true => simp [hbe]
  | false => simp [hbe, hp]

/-- Witness for C8: a concrete report with a block whose payload the parser
rejects. -/
theorem claim_C8_witness :
    reconcileFinish (fun _ => (Except.error "invalid" : Except String Nat))
        "<JSON_RESULT>nonsense</JSON_RESULT>" "print(1)" =
      { report := "<JSON_RESULT>nonsense</JSON_RESULT>", code := "print(1)",
        joinedData := none } :=
  claim_C8 (fun _ => Except.error "invalid")
    "<JSON_RESULT>nonsense</JSON_RESULT>" "print(1)" "nonsense" "invalid"
    (by decide) rfl
